import Mathlib

/-!
Shallow embedding of the notes backend data-access layer
(`src/api/repository.py`, `src/api/db.py`, `src/api/config.py`).

Timestamps are ISO-8601 UTC strings produced by `_now_iso()` with
microsecond precision.  We model such a timestamp as a pair of the
whole-second part and the sub-second (microsecond) part; the full
chronological order is the lexicographic order on the pair.  SQLite's
`datetime(...)` function, used in the `ORDER BY` clause of
`list_notes`, renders `YYYY-MM-DD HH:MM:SS` and therefore drops the
sub-second part: its sort key is only the `sec` field.

The notes table (`db.py`, `init_db`) has `id INTEGER PRIMARY KEY
AUTOINCREMENT`; we model the table as the list of rows in rowid order
together with the `AUTOINCREMENT` sequence counter, which is at least
every id ever assigned, so a fresh insert gets id `seq + 1`.
-/

namespace NotesBackend

/-- An ISO-8601 UTC timestamp as written by `_now_iso()`:
`sec` is the whole-second instant, `usec` the microsecond fraction. -/
structure Timestamp where
  sec : Nat
  usec : Nat
  deriving DecidableEq, Repr

/-- Full chronological order on timestamps (string comparison of the
ISO representations agrees with this lexicographic order). -/
def tsLe (a b : Timestamp) : Prop :=
  a.sec < b.sec ∨ (a.sec = b.sec ∧ a.usec ≤ b.usec)

/-- Strict chronological order on timestamps. -/
def tsLt (a b : Timestamp) : Prop :=
  a.sec < b.sec ∨ (a.sec = b.sec ∧ a.usec < b.usec)

instance : DecidablePred (fun p : Timestamp × Timestamp => tsLe p.1 p.2) := by
  intro p; unfold tsLe; infer_instance

instance (a b : Timestamp) : Decidable (tsLe a b) := by
  unfold tsLe; infer_instance

instance (a b : Timestamp) : Decidable (tsLt a b) := by
  unfold tsLt; infer_instance

/-- A row of the `notes` table, the shape of `NoteOut`
(`models.py`): `id`, required `title`, nullable `content`, and the two
timestamps. -/
structure Note where
  id : Nat
  title : String
  content : Option String
  created_at : Timestamp
  updated_at : Timestamp
  deriving DecidableEq, Repr

/-- The `notes` table: rows in rowid order plus the
`AUTOINCREMENT` sequence value (`sqlite_sequence`). -/
structure DB where
  rows : List Note
  seq : Nat
  deriving DecidableEq, Repr

/-- Well-formedness of a table reachable through the repository:
every assigned id is at most the sequence counter, and ids are
distinct (both guaranteed by `INTEGER PRIMARY KEY AUTOINCREMENT`). -/
def Inv (db : DB) : Prop :=
  (∀ n ∈ db.rows, n.id ≤ db.seq) ∧ (db.rows.map Note.id).Nodup

instance (db : DB) : Decidable (Inv db) := by
  unfold Inv; infer_instance

/-- `_fetch_one(conn, "SELECT * FROM notes WHERE id = ?", (id,))`:
the first row matching the id, or `None`. -/
def fetchOne (rows : List Note) (noteId : Nat) : Option Note :=
  rows.find? (fun n => n.id = noteId)

/-- `create_note` (`repository.py`): insert a row with both timestamps
set to `now`, take `lastrowid`, then re-fetch that row; the first
component is the re-fetched row (the code asserts it is not `None` and
returns it). -/
def create_note (db : DB) (title : String) (content : Option String)
    (now : Timestamp) : Option Note × DB :=
  let noteId := db.seq + 1
  let row : Note := ⟨noteId, title, content, now, now⟩
  let db' : DB := ⟨db.rows ++ [row], noteId⟩
  (fetchOne db'.rows noteId, db')

/-- `get_note` (`repository.py`): fetch a single note by id. -/
def get_note (db : DB) (noteId : Nat) : Option Note :=
  fetchOne db.rows noteId

/-- `update_note` (`repository.py`): return `None` if the id is
absent; otherwise set `title` / `content` only when the argument is
not `None`, always set `updated_at := now`, commit, and re-fetch. -/
def update_note (db : DB) (noteId : Nat) (title : Option String)
    (content : Option String) (now : Timestamp) : Option Note × DB :=
  match fetchOne db.rows noteId with
  | none => (none, db)
  | some _ =>
    let rows' := db.rows.map (fun n =>
      if n.id = noteId then
        { n with
          title := title.getD n.title
          content := match content with
            | some c => some c
            | none => n.content
          updated_at := now }
      else n)
    (fetchOne rows' noteId, ⟨rows', db.seq⟩)

/-- `delete_note` (`repository.py`): `DELETE FROM notes WHERE id = ?`;
returns `rowcount > 0`, i.e. whether a row was removed.  The
`AUTOINCREMENT` sequence is untouched by a delete. -/
def delete_note (db : DB) (noteId : Nat) : Bool × DB :=
  let rows' := db.rows.filter (fun n => n.id ≠ noteId)
  (rows'.length < db.rows.length, ⟨rows', db.seq⟩)

/-- Comparison used by `ORDER BY datetime(updated_at) DESC, id DESC`:
`a` sorts no later than `b` iff `a`'s second-truncated `updated_at` is
larger, or they are equal to the second and `a.id ≥ b.id`.
`datetime()` renders whole seconds only, so only `sec` is compared. -/
def noteBefore (a b : Note) : Prop :=
  b.updated_at.sec < a.updated_at.sec ∨
    (a.updated_at.sec = b.updated_at.sec ∧ b.id ≤ a.id)

instance : DecidableRel noteBefore := by
  intro a b; unfold noteBefore; infer_instance

instance : IsTotal Note noteBefore where
  total a b := by
    unfold noteBefore
    rcases Nat.lt_trichotomy a.updated_at.sec b.updated_at.sec with h | h | h
    · exact Or.inr (Or.inl h)
    · rcases Nat.le_total a.id b.id with h' | h'
      · exact Or.inr (Or.inr ⟨h.symm, h'⟩)
      · exact Or.inl (Or.inr ⟨h, h'⟩)
    · exact Or.inl (Or.inl h)

instance : IsTrans Note noteBefore where
  trans a b c hab hbc := by
    unfold noteBefore at *
    rcases hab with h1 | ⟨e1, i1⟩
    · rcases hbc with h2 | ⟨e2, _⟩
      · exact Or.inl (Nat.lt_trans h2 h1)
      · exact Or.inl (e2 ▸ h1)
    · rcases hbc with h2 | ⟨e2, i2⟩
      · exact Or.inl (e1 ▸ h2)
      · exact Or.inr ⟨e1.trans e2, Nat.le_trans i2 i1⟩

/-- `list_notes` (`repository.py`):
`SELECT * FROM notes ORDER BY datetime(updated_at) DESC, id DESC
LIMIT ? OFFSET ?`.  SQL applies the offset before the limit. -/
def list_notes (db : DB) (offset limit : Nat) : List Note :=
  (((db.rows.insertionSort noteBefore).drop offset).take limit)

/-! ### Configuration provider (`config.py`)

Python strings are modelled as `List Char`; `str.strip()` removes
leading and trailing whitespace, `str.split(",")` splits at every
comma keeping empty pieces (so `"".split(",") == [""]`). -/

/-- `str.split(sep)` for a one-character separator: split at every
occurrence, keeping empty pieces. -/
def pySplit (c : Char) : List Char → List (List Char)
  | [] => [[]]
  | x :: xs =>
    if x = c then [] :: pySplit c xs
    else
      match pySplit c xs with
      | [] => [[x]]
      | h :: t => (x :: h) :: t

/-- Append `w` to the last piece of a split (the shape `pySplit`
takes when separator-free text is appended to the input). -/
def appendLast (w : List Char) : List (List Char) → List (List Char)
  | [] => []
  | [a] => [a ++ w]
  | a :: b :: t => a :: appendLast w (b :: t)

/-- Left part of `str.strip()`: drop leading whitespace. -/
def pyLStrip (l : List Char) : List Char :=
  l.dropWhile Char.isWhitespace

/-- `str.strip()`: drop leading and trailing whitespace. -/
def pyStrip (l : List Char) : List Char :=
  (pyLStrip (pyLStrip l).reverse).reverse

/-- `Settings.cors_allow_origins` (`config.py`): strip the raw string;
empty or `"*"` gives the wildcard list; otherwise split the *stripped*
string at commas, strip each piece, and drop empty pieces. -/
def cors_allow_origins (raw : List Char) : List (List Char) :=
  let t := pyStrip raw
  if t = [] ∨ t = ['*'] then [['*']]
  else ((pySplit ',' t).map pyStrip).filter (fun o => o ≠ [])

/-- The accessor as the spec's words describe it: wildcard when the
trimmed string is empty or exactly `"*"`, otherwise the comma-separated
components of the raw string, each trimmed, empties dropped. -/
def cors_allow_origins_spec (raw : List Char) : List (List Char) :=
  let t := pyStrip raw
  if t = [] ∨ t = ['*'] then [['*']]
  else ((pySplit ',' raw).map pyStrip).filter (fun o => o ≠ [])

/-- A SQLite database file: the `notes` table is either absent or
present with its contents. -/
structure SQLiteDB where
  notes : Option DB
  deriving DecidableEq, Repr

/-- `init_db` (`db.py`): `CREATE TABLE IF NOT EXISTS notes (...)` then
commit — creates an empty table only when none exists. -/
def init_db (s : SQLiteDB) : SQLiteDB :=
  match s.notes with
  | none => ⟨some ⟨[], 0⟩⟩
  | some _ => s

/-! ### Supporting lemmas -/

/-- In a well-formed table every id is at most `seq`, so a row with id
`seq + 1` appended at the end is the unique (first) match. -/
lemma fetchOne_append_fresh (rows : List Note) (s : Nat)
    (h : ∀ n ∈ rows, n.id ≤ s) (row : Note) (hid : row.id = s + 1) :
    fetchOne (rows ++ [row]) (s + 1) = some row := by
  induction rows with
  | nil => simp [fetchOne, hid]
  | cons a t ih =>
    have ha : a.id ≤ s := h a (List.mem_cons_self a t)
    have hne : ¬ (a.id = s + 1) := by omega
    simpa [fetchOne, List.find?, hne] using
      ih (fun n hn => h n (List.mem_cons_of_mem a hn))

/-- `find?` over a row-wise map commutes with the map when the mapping
preserves the id column. -/
lemma fetchOne_map_id_preserving (f : Note → Note)
    (hid : ∀ n, (f n).id = n.id) (rows : List Note) (i : Nat) :
    fetchOne (rows.map f) i = (fetchOne rows i).map f := by
  induction rows with
  | nil => simp [fetchOne]
  | cons a t ih =>
    by_cases h : a.id = i
    · simp [fetchOne, List.find?, hid, h]
    · simpa [fetchOne, List.find?, hid, h] using ih

/-- On a hit, `update_note` returns the found row with exactly the
supplied fields replaced and `updated_at` set to `now`. -/
lemma update_note_found (db : DB) (noteId : Nat) (title content : Option String)
    (now : Timestamp) (n : Note) (h : fetchOne db.rows noteId = some n) :
    (update_note db noteId title content now).1 = some
      { n with
        title := title.getD n.title
        content := match content with
          | some c => some c
          | none => n.content
        updated_at := now } := by
  have hnid : n.id = noteId := by
    have := List.find?_some h
    exact of_decide_eq_true this
  unfold update_note
  rw [h]
  simp only
  rw [fetchOne_map_id_preserving _ (fun m => by by_cases hm : m.id = noteId <;> simp [hm]) db.rows noteId]
  rw [h]
  simp [hnid]

/-- `pySplit` always yields at least one piece. -/
lemma pySplit_ne_nil (c : Char) (l : List Char) : pySplit c l ≠ [] := by
  cases l with
  | nil => simp [pySplit]
  | cons a t =>
    by_cases h : a = c
    · simp [pySplit, h]
    · simp only [pySplit, if_neg h]
      cases pySplit c t <;> simp

/-- A separator-free string is a single piece. -/
lemma pySplit_no_sep (c : Char) (l : List Char) (h : ∀ x ∈ l, x ≠ c) :
    pySplit c l = [l] := by
  induction l with
  | nil => rfl
  | cons a t ih =>
    have ha : a ≠ c := h a (List.mem_cons_self a t)
    rw [pySplit, if_neg ha, ih (fun x hx => h x (List.mem_cons_of_mem a hx))]

/-- Appending separator-free text `w` extends the last piece. -/
lemma pySplit_append_no_sep (c : Char) (w : List Char)
    (hw : ∀ x ∈ w, x ≠ c) :
    ∀ m : List Char, pySplit c (m ++ w) = appendLast w (pySplit c m) := by
  intro m
  induction m with
  | nil => simp [pySplit_no_sep c w hw, pySplit, appendLast]
  | cons a t ih =>
    obtain ⟨hh, ht, hps⟩ : ∃ hh ht, pySplit c t = hh :: ht := by
      cases hps : pySplit c t with
      | nil => exact absurd hps (pySplit_ne_nil c t)
      | cons x xs => exact ⟨x, xs, rfl⟩
    by_cases h : a = c
    · simp [pySplit, h, ih, hps, appendLast]
    · cases ht with
      | nil => simp [pySplit, h, ih, hps, appendLast]
      | cons b bt => simp [pySplit, h, ih, hps, appendLast]

/-- Prepending separator-free text `w` extends the first piece. -/
lemma pySplit_prepend_no_sep (c : Char) (w : List Char)
    (hw : ∀ x ∈ w, x ≠ c) :
    ∀ (m hd : List Char) (tl : List (List Char)), pySplit c m = hd :: tl →
      pySplit c (w ++ m) = (w ++ hd) :: tl := by
  induction w with
  | nil => intro m hd tl hm; simpa using hm
  | cons a aw ih =>
    intro m hd tl hm
    have ha : a ≠ c := hw a (List.mem_cons_self a aw)
    have := ih (fun x hx => hw x (List.mem_cons_of_mem a hx)) m hd tl hm
    rw [List.cons_append, pySplit, if_neg ha, this]
    rfl

/-- Dropping leading whitespace ignores an all-whitespace prefix. -/
lemma pyLStrip_prepend_ws (w x : List Char)
    (hw : ∀ a ∈ w, a.isWhitespace) : pyLStrip (w ++ x) = pyLStrip x := by
  induction w with
  | nil => rfl
  | cons a aw ih =>
    have ha : a.isWhitespace := hw a (List.mem_cons_self a aw)
    rw [List.cons_append, pyLStrip, List.dropWhile_cons_of_pos ha]
    exact ih (fun b hb => hw b (List.mem_cons_of_mem a hb))

/-- `str.strip()` ignores an all-whitespace prefix. -/
lemma pyStrip_prepend_ws (w x : List Char)
    (hw : ∀ a ∈ w, a.isWhitespace) : pyStrip (w ++ x) = pyStrip x := by
  unfold pyStrip
  rw [pyLStrip_prepend_ws w x hw]

/-- `str.strip()` ignores an all-whitespace suffix. -/
lemma pyStrip_append_ws (x w : List Char)
    (hw : ∀ a ∈ w, a.isWhitespace) : pyStrip (x ++ w) = pyStrip x := by
  unfold pyStrip
  cases hx : pyLStrip x with
  | nil =>
    have hxw : pyLStrip (x ++ w) = [] := by
      unfold pyLStrip at *
      rw [List.dropWhile_eq_nil_iff] at hx ⊢
      intro a ha
      rcases List.mem_append.1 ha with h | h
      · exact hx a h
      · exact hw a h
    rw [hxw]
  | cons d dt =>
    have hxw : pyLStrip (x ++ w) = (d :: dt) ++ w := by
      unfold pyLStrip at *
      rw [List.dropWhile_append, hx]
      simp
    rw [hxw, List.reverse_append]
    exact congrArg List.reverse
      (pyLStrip_prepend_ws w.reverse (d :: dt).reverse
        (fun a ha => hw a (List.mem_reverse.1 ha)))

/-- Per-piece stripping erases a separator-free whitespace suffix
pushed into the last piece. -/
lemma map_pyStrip_appendLast (w : List Char)
    (hw : ∀ a ∈ w, a.isWhitespace) :
    ∀ L : List (List Char), (appendLast w L).map pyStrip = L.map pyStrip := by
  intro L
  induction L with
  | nil => rfl
  | cons a t ih =>
    cases t with
    | nil => simp [appendLast, pyStrip_append_ws a w hw]
    | cons b bt =>
      simp only [appendLast, List.map_cons] at ih ⊢
      rw [ih]

/-- Splitting then stripping each piece is unaffected by an
all-whitespace suffix of the input. -/
lemma map_pySplit_append_ws (m w : List Char)
    (hw : ∀ a ∈ w, a.isWhitespace) :
    (pySplit ',' (m ++ w)).map pyStrip = (pySplit ',' m).map pyStrip := by
  have hnc : ∀ x ∈ w, x ≠ ',' := by
    intro x hx h
    have := hw x hx
    rw [h] at this
    exact absurd this (by decide)
  rw [pySplit_append_no_sep ',' w hnc m, map_pyStrip_appendLast w hw]

/-- Splitting then stripping each piece is unaffected by an
all-whitespace prefix of the input. -/
lemma map_pySplit_prepend_ws (w m : List Char)
    (hw : ∀ a ∈ w, a.isWhitespace) :
    (pySplit ',' (w ++ m)).map pyStrip = (pySplit ',' m).map pyStrip := by
  have hnc : ∀ x ∈ w, x ≠ ',' := by
    intro x hx h
    have := hw x hx
    rw [h] at this
    exact absurd this (by decide)
  obtain ⟨hd, tl, hm⟩ : ∃ hd tl, pySplit ',' m = hd :: tl := by
    cases hps : pySplit ',' m with
    | nil => exact absurd hps (pySplit_ne_nil ',' m)
    | cons x xs => exact ⟨x, xs, rfl⟩
  rw [pySplit_prepend_no_sep ',' w hnc m hd tl hm, hm, List.map_cons, List.map_cons,
    pyStrip_prepend_ws w hd hw]

/-- Splitting the stripped string and stripping each piece gives the
same pieces as splitting the raw string and stripping each piece. -/
lemma map_pySplit_pyStrip (raw : List Char) :
    (pySplit ',' (pyStrip raw)).map pyStrip = (pySplit ',' raw).map pyStrip := by
  have h1 : raw = List.takeWhile Char.isWhitespace raw ++ pyLStrip raw :=
    (List.takeWhile_append_dropWhile Char.isWhitespace raw).symm
  have h2 : pyLStrip raw =
      pyStrip raw ++ (List.takeWhile Char.isWhitespace (pyLStrip raw).reverse).reverse := by
    conv_lhs => rw [← List.reverse_reverse (pyLStrip raw),
      ← List.takeWhile_append_dropWhile Char.isWhitespace (pyLStrip raw).reverse]
    rw [List.reverse_append]
    rfl
  have hw1 : ∀ a ∈ List.takeWhile Char.isWhitespace raw, a.isWhitespace :=
    fun a ha => List.mem_takeWhile_imp ha
  have hw2 : ∀ a ∈ (List.takeWhile Char.isWhitespace (pyLStrip raw).reverse).reverse,
      a.isWhitespace :=
    fun a ha => List.mem_takeWhile_imp (List.mem_reverse.1 ha)
  conv_rhs => rw [h1]
  rw [map_pySplit_prepend_ws _ _ hw1]
  conv_rhs => rw [h2]
  rw [map_pySplit_append_ws _ _ hw2]

/-! ### Claim theorems -/

/-- C3: for every non-empty title `T` and optional content `C`,
`create_note` returns a note with a fresh assigned id, `title = T`,
`content = C`, and `created_at = updated_at`; the returned value is
exactly the persisted row (re-fetching it by id yields the same
value). -/
theorem create_note_correct (db : DB) (T : String) (C : Option String)
    (now : Timestamp) (hInv : Inv db) (_hT : T ≠ "") :
    ∃ n : Note, (create_note db T C now).1 = some n ∧
      n.id = db.seq + 1 ∧ n.title = T ∧ n.content = C ∧
      n.created_at = n.updated_at ∧
      get_note (create_note db T C now).2 n.id = some n := by
  refine ⟨⟨db.seq + 1, T, C, now, now⟩, ?_, rfl, rfl, rfl, rfl, ?_⟩
  · simpa [create_note] using
      fetchOne_append_fresh db.rows db.seq hInv.1 ⟨db.seq + 1, T, C, now, now⟩ rfl
  · simpa [create_note, get_note] using
      fetchOne_append_fresh db.rows db.seq hInv.1 ⟨db.seq + 1, T, C, now, now⟩ rfl

/-- Witness for C3 at a concrete table state. -/
theorem create_note_correct_witness :
    ∃ n : Note,
      (create_note ⟨[⟨1, "old", none, ⟨0, 0⟩, ⟨0, 0⟩⟩], 1⟩ "T" (some "C") ⟨3, 4⟩).1 = some n ∧
      n.id = 2 ∧ n.title = "T" ∧ n.content = some "C" ∧
      n.created_at = n.updated_at ∧
      get_note (create_note ⟨[⟨1, "old", none, ⟨0, 0⟩, ⟨0, 0⟩⟩], 1⟩ "T" (some "C") ⟨3, 4⟩).2 n.id = some n :=
  create_note_correct ⟨[⟨1, "old", none, ⟨0, 0⟩, ⟨0, 0⟩⟩], 1⟩ "T" (some "C") ⟨3, 4⟩
    (by constructor <;> simp) (by simp)

/-- C4: whatever note `create_note` returns, `get_note` on the
resulting state with that note's id returns the same value (no
intervening update or delete). -/
theorem get_after_create (db : DB) (T : String) (C : Option String)
    (now : Timestamp) (hInv : Inv db) :
    ∀ n : Note, (create_note db T C now).1 = some n →
      get_note (create_note db T C now).2 n.id = some n := by
  intro n hn
  have hfetch : fetchOne (db.rows ++ [⟨db.seq + 1, T, C, now, now⟩]) (db.seq + 1) =
      some ⟨db.seq + 1, T, C, now, now⟩ :=
    fetchOne_append_fresh db.rows db.seq hInv.1 ⟨db.seq + 1, T, C, now, now⟩ rfl
  have hn' : n = ⟨db.seq + 1, T, C, now, now⟩ := by
    have : (create_note db T C now).1 = some ⟨db.seq + 1, T, C, now, now⟩ := by
      simpa [create_note] using hfetch
    rw [this] at hn
    exact (Option.some.inj hn).symm
  subst hn'
  simpa [create_note, get_note] using hfetch

/-- Witness for C4 at a concrete table state. -/
theorem get_after_create_witness :
    get_note (create_note ⟨[], 0⟩ "T" none ⟨3, 4⟩).2 (⟨1, "T", none, ⟨3, 4⟩, ⟨3, 4⟩⟩ : Note).id =
      some ⟨1, "T", none, ⟨3, 4⟩, ⟨3, 4⟩⟩ :=
  get_after_create ⟨[], 0⟩ "T" none ⟨3, 4⟩ (by constructor <;> simp)
    ⟨1, "T", none, ⟨3, 4⟩, ⟨3, 4⟩⟩ rfl

/-- C9: the re-fetch inside `create_note` always finds a row: the
`assert created is not None` can never fire, for any title, content
and prior table state — the just-appended row matches its own id. -/
theorem create_note_refetch_isSome (db : DB) (T : String) (C : Option String)
    (now : Timestamp) : ((create_note db T C now).1).isSome = true := by
  unfold create_note fetchOne
  simp only
  rw [List.find?_isSome]
  exact ⟨⟨db.seq + 1, T, C, now, now⟩, by simp, by simp⟩

/-- C5: `delete_note` returns `true` exactly when a row with that id
existed before the call, and afterwards `get_note` on that id returns
none. -/
theorem delete_note_correct (db : DB) (noteId : Nat) :
    ((delete_note db noteId).1 = true ↔ get_note db noteId ≠ none) ∧
    get_note (delete_note db noteId).2 noteId = none := by
  constructor
  · unfold delete_note get_note fetchOne
    simp only [decide_eq_true_eq]
    rw [Option.ne_none_iff_isSome, List.find?_isSome]
    constructor
    · intro h
      obtain ⟨x, hx, hpx⟩ := List.length_filter_lt_length_iff_exists.1 h
      exact ⟨x, hx, by simpa using hpx⟩
    · intro ⟨x, hx, hpx⟩
      exact List.length_filter_lt_length_iff_exists.2 ⟨x, hx, by simpa using hpx⟩
  · unfold delete_note get_note fetchOne
    simp only
    rw [List.find?_eq_none]
    intro x hx
    have := (List.mem_filter.1 hx).2
    simpa using this

/-- C6: `update_note` on an id with no existing row returns the
not-found result and leaves the table (rows and sequence) unchanged. -/
theorem update_note_not_found (db : DB) (noteId : Nat)
    (title content : Option String) (now : Timestamp)
    (h : get_note db noteId = none) :
    update_note db noteId title content now = (none, db) := by
  unfold update_note
  rw [show fetchOne db.rows noteId = none from h]

/-- Witness for C6 at a concrete table state. -/
theorem update_note_not_found_witness :
    update_note ⟨[⟨1, "A", none, ⟨0, 0⟩, ⟨0, 0⟩⟩], 1⟩ 7 (some "T") none ⟨2, 0⟩ =
      (none, ⟨[⟨1, "A", none, ⟨0, 0⟩, ⟨0, 0⟩⟩], 1⟩) :=
  update_note_not_found ⟨[⟨1, "A", none, ⟨0, 0⟩, ⟨0, 0⟩⟩], 1⟩ 7 (some "T") none ⟨2, 0⟩ rfl

/-- C2: on an existing note, a title-only update changes only the
title (content, id, created_at unchanged) and sets `updated_at := now`
(hence `≥` the prior `updated_at` under clock monotonicity); a
content-only update leaves the title unchanged; and an update with
neither field still refreshes `updated_at`. -/
theorem update_note_frame (db : DB) (noteId : Nat) (n : Note) (t c : String)
    (now : Timestamp) (h : get_note db noteId = some n)
    (hnow : tsLe n.updated_at now) :
    (∃ m : Note, (update_note db noteId (some t) none now).1 = some m ∧
        m.id = n.id ∧ m.content = n.content ∧ m.created_at = n.created_at ∧
        m.title = t ∧ m.updated_at = now ∧ tsLe n.updated_at m.updated_at) ∧
    (∃ m : Note, (update_note db noteId none (some c) now).1 = some m ∧
        m.id = n.id ∧ m.title = n.title ∧ m.created_at = n.created_at ∧
        m.content = some c ∧ m.updated_at = now) ∧
    (∃ m : Note, (update_note db noteId none none now).1 = some m ∧
        m.id = n.id ∧ m.title = n.title ∧ m.content = n.content ∧
        m.created_at = n.created_at ∧ m.updated_at = now) :=
  ⟨⟨_, update_note_found db noteId (some t) none now n h,
      rfl, rfl, rfl, rfl, rfl, hnow⟩,
   ⟨_, update_note_found db noteId none (some c) now n h,
      rfl, rfl, rfl, rfl, rfl⟩,
   ⟨_, update_note_found db noteId none none now n h,
      rfl, rfl, rfl, rfl, rfl⟩⟩

/-- Witness for C2 at a concrete table state. -/
theorem update_note_frame_witness :
    (∃ m : Note,
        (update_note ⟨[⟨1, "A", some "body", ⟨0, 0⟩, ⟨1, 0⟩⟩], 1⟩ 1 (some "T2") none ⟨2, 5⟩).1 = some m ∧
        m.id = 1 ∧ m.content = some "body" ∧ m.created_at = ⟨0, 0⟩ ∧
        m.title = "T2" ∧ m.updated_at = ⟨2, 5⟩ ∧ tsLe ⟨1, 0⟩ m.updated_at) ∧
    (∃ m : Note,
        (update_note ⟨[⟨1, "A", some "body", ⟨0, 0⟩, ⟨1, 0⟩⟩], 1⟩ 1 none (some "C2") ⟨2, 5⟩).1 = some m ∧
        m.id = 1 ∧ m.title = "A" ∧ m.created_at = ⟨0, 0⟩ ∧
        m.content = some "C2" ∧ m.updated_at = ⟨2, 5⟩) ∧
    (∃ m : Note,
        (update_note ⟨[⟨1, "A", some "body", ⟨0, 0⟩, ⟨1, 0⟩⟩], 1⟩ 1 none none ⟨2, 5⟩).1 = some m ∧
        m.id = 1 ∧ m.title = "A" ∧ m.content = some "body" ∧
        m.created_at = ⟨0, 0⟩ ∧ m.updated_at = ⟨2, 5⟩) :=
  update_note_frame ⟨[⟨1, "A", some "body", ⟨0, 0⟩, ⟨1, 0⟩⟩], 1⟩ 1
    ⟨1, "A", some "body", ⟨0, 0⟩, ⟨1, 0⟩⟩ "T2" "C2" ⟨2, 5⟩ rfl (by decide)

/-- C10: an update call (with any combination of optional arguments)
on an existing note whose content is non-null returns a note whose
content is still non-null: an absent argument is `none` and `none`
arguments are skipped, so content can never be set back to null. -/
theorem update_note_content_stays_non_null (db : DB) (noteId : Nat) (n : Note)
    (title content : Option String) (now : Timestamp)
    (h : get_note db noteId = some n) (hc : n.content ≠ none) :
    ∀ m : Note, (update_note db noteId title content now).1 = some m →
      m.content ≠ none := by
  intro m hm
  rw [update_note_found db noteId title content now n h] at hm
  cases hm' : content with
  | some x =>
    rw [hm'] at hm
    simp only [Option.some.injEq] at hm
    rw [← hm]
    simp
  | none =>
    rw [hm'] at hm
    simp only [Option.some.injEq] at hm
    rw [← hm]
    exact hc

/-- Witness for C10 at a concrete table state. -/
theorem update_note_content_stays_non_null_witness :
    (⟨1, "A", some "body", ⟨0, 0⟩, ⟨2, 5⟩⟩ : Note).content ≠ none :=
  update_note_content_stays_non_null ⟨[⟨1, "A", some "body", ⟨0, 0⟩, ⟨1, 0⟩⟩], 1⟩ 1
    ⟨1, "A", some "body", ⟨0, 0⟩, ⟨1, 0⟩⟩ none none ⟨2, 5⟩ rfl (by simp)
    ⟨1, "A", some "body", ⟨0, 0⟩, ⟨2, 5⟩⟩ rfl

/-- C7: `init_db` is idempotent — a second call after the first
changes nothing, and on a database whose notes table already exists
(with any rows) `init_db` leaves the state exactly as it is
(`CREATE TABLE IF NOT EXISTS` is a no-op then). -/
theorem init_db_idempotent (s : SQLiteDB) :
    init_db (init_db s) = init_db s ∧
    (∀ db : DB, s.notes = some db → init_db s = s) := by
  constructor
  · cases h : s.notes <;> simp [init_db, h]
  · intro db h
    cases s with
    | mk notes => cases h; rfl

/-- Witness for C7 at a concrete database state. -/
theorem init_db_idempotent_witness :
    init_db (init_db ⟨some ⟨[⟨1, "A", none, ⟨0, 0⟩, ⟨0, 0⟩⟩], 1⟩⟩) =
        init_db ⟨some ⟨[⟨1, "A", none, ⟨0, 0⟩, ⟨0, 0⟩⟩], 1⟩⟩ ∧
    init_db ⟨some ⟨[⟨1, "A", none, ⟨0, 0⟩, ⟨0, 0⟩⟩], 1⟩⟩ =
        ⟨some ⟨[⟨1, "A", none, ⟨0, 0⟩, ⟨0, 0⟩⟩], 1⟩⟩ :=
  ⟨(init_db_idempotent ⟨some ⟨[⟨1, "A", none, ⟨0, 0⟩, ⟨0, 0⟩⟩], 1⟩⟩).1,
   (init_db_idempotent ⟨some ⟨[⟨1, "A", none, ⟨0, 0⟩, ⟨0, 0⟩⟩], 1⟩⟩).2 _ rfl⟩

/-- C1 (counterexample to the claim as stated): two notes share the
same whole second but differ in the sub-second part of `updated_at`.
Note 1's full `updated_at` (10.9 s) is strictly later than note 2's
(10.1 s), yet `list_notes` places note 2 first, because the sort key
`datetime(updated_at)` drops sub-seconds and the tie falls to
`id DESC`.  So sub-second differences are not honoured. -/
theorem list_notes_subsecond_counterexample :
    list_notes ⟨[⟨1, "A", none, ⟨0, 0⟩, ⟨10, 900000⟩⟩,
                 ⟨2, "B", none, ⟨5, 0⟩, ⟨10, 100000⟩⟩], 2⟩ 0 10 =
      [⟨2, "B", none, ⟨5, 0⟩, ⟨10, 100000⟩⟩,
       ⟨1, "A", none, ⟨0, 0⟩, ⟨10, 900000⟩⟩] ∧
    tsLt (⟨10, 100000⟩ : Timestamp) ⟨10, 900000⟩ :=
  ⟨rfl, by decide⟩

/-- C1 (amended): `list_notes` returns the notes sorted by
`updated_at` truncated to whole seconds descending, ties — including
notes whose `updated_at` differ only below one second — broken by `id`
descending, then skips `offset` notes and returns at most `limit` of
the remainder. -/
theorem list_notes_order (db : DB) (hInv : Inv db) :
    ∃ s : List Note, s.Perm db.rows ∧
      s.Pairwise (fun a b => b.updated_at.sec < a.updated_at.sec ∨
        (a.updated_at.sec = b.updated_at.sec ∧ b.id < a.id)) ∧
      ∀ offset limit : Nat, list_notes db offset limit = (s.drop offset).take limit := by
  refine ⟨db.rows.insertionSort noteBefore,
    List.perm_insertionSort noteBefore db.rows, ?_, fun _ _ => rfl⟩
  have hsorted : (db.rows.insertionSort noteBefore).Pairwise noteBefore :=
    List.sorted_insertionSort noteBefore db.rows
  have hnodup : ((db.rows.insertionSort noteBefore).map Note.id).Nodup :=
    ((List.perm_insertionSort noteBefore db.rows).map Note.id).nodup_iff.2 hInv.2
  have hne : (db.rows.insertionSort noteBefore).Pairwise (fun a b => a.id ≠ b.id) := by
    rw [List.Nodup, List.pairwise_map] at hnodup
    exact hnodup
  refine (hsorted.and hne).imp ?_
  rintro a b ⟨hab, hid⟩
  rcases hab with hlt | ⟨heq, hle⟩
  · exact Or.inl hlt
  · exact Or.inr ⟨heq, by omega⟩

/-- Witness for C1 (amended) at a concrete table state. -/
theorem list_notes_order_witness :
    ∃ s : List Note,
      s.Perm [⟨1, "A", none, ⟨0, 0⟩, ⟨10, 900000⟩⟩,
              ⟨2, "B", none, ⟨5, 0⟩, ⟨10, 100000⟩⟩] ∧
      s.Pairwise (fun a b => b.updated_at.sec < a.updated_at.sec ∨
        (a.updated_at.sec = b.updated_at.sec ∧ b.id < a.id)) ∧
      ∀ offset limit : Nat,
        list_notes ⟨[⟨1, "A", none, ⟨0, 0⟩, ⟨10, 900000⟩⟩,
                     ⟨2, "B", none, ⟨5, 0⟩, ⟨10, 100000⟩⟩], 2⟩ offset limit =
          (s.drop offset).take limit :=
  list_notes_order ⟨[⟨1, "A", none, ⟨0, 0⟩, ⟨10, 900000⟩⟩,
                     ⟨2, "B", none, ⟨5, 0⟩, ⟨10, 100000⟩⟩], 2⟩ (by decide)

/-- C8: for every raw CORS origin string, the accessor returns the
single-element wildcard list when the trimmed string is empty or
exactly `"*"`, and otherwise the comma-separated components of the raw
string, each trimmed of whitespace, with empty components dropped —
i.e. the code (which splits the trimmed string) agrees with the spec's
description (which splits the raw string). -/
theorem cors_allow_origins_correct (raw : List Char) :
    cors_allow_origins raw = cors_allow_origins_spec raw := by
  unfold cors_allow_origins cors_allow_origins_spec
  by_cases h : pyStrip raw = [] ∨ pyStrip raw = ['*']
  · simp only [if_pos h]
  · simp only [if_neg h]
    exact congrArg (List.filter (fun o => o ≠ [])) (map_pySplit_pyStrip raw)

end NotesBackend
